import Mathlib

/-!
Verification of the graphql-fragment-argument-linter repository.

The development shallowly embeds the plugin pipeline (src/plugin.ts), the
visitor state and its bookkeeping (src/visitor.ts), and the data model
(src/types.ts).  GraphQL AST nodes are embedded structurally: a directive is
identified by its name, selection sets are trees of fields, inline fragments
and fragment spreads, and source locations are optional (line, column) pairs.

The repository's visitor source file predates the current plugin: it does not
contain the collectFragmentSpread / validateFragmentSpreads methods that
plugin.ts invokes, nor the argument-definitions check of validateFragment that
the visitor tests exercise.  Those missing bodies are modelled from the spec
(each such definition carries a doc comment starting "Modelled from the
spec:"); everything else is translated directly from the source.
-/

/-- Severity of a validation issue (src/types.ts, extensible set). -/
inductive Level where
  | error
  | warning
  | info
deriving DecidableEq, Repr

/-- Source location metadata: line and column (src/types.ts). -/
structure Location where
  line : Nat
  column : Nat
deriving DecidableEq, Repr

/-- A validation issue found during linting (src/types.ts, ValidationIssue). -/
structure ValidationIssue where
  level : Level
  message : String
  fragmentName : String
  location : Option Location
deriving DecidableEq, Repr

/-- A fragment argument (src/types.ts, FragmentArgument); `type`,
`defaultValue` and `description` are optional strings. -/
structure FragmentArgument where
  name : String
  type : Option String
  defaultValue : Option String
  description : Option String
deriving DecidableEq, Repr

/-- A fragment-spread AST node: the spread name, its (possibly absent)
directive list, and optional location.  Directives are identified by name. -/
structure FragmentSpreadNode where
  fragmentName : String
  directives : Option (List String)
  loc : Option Location
deriving DecidableEq, Repr

/-- A selection inside a selection set: a field (with an optional nested
selection set), an inline fragment (likewise), or a fragment spread.  A
selection set is embedded as `Option (List Selection)`: `none` covers both an
absent selection set and one with no selections array. -/
inductive Selection where
  | field (selectionSet : Option (List Selection))
  | inlineFragment (selectionSet : Option (List Selection))
  | fragmentSpread (node : FragmentSpreadNode)

/-- A fragment-definition AST node: name, type condition, directive list,
selection set and optional location. -/
structure FragmentDefinitionNode where
  name : String
  typeCondition : String
  directives : Option (List String)
  selectionSet : Option (List Selection)
  loc : Option Location

/-- A top-level definition of a GraphQL document, discriminated by `kind` in
the source; kinds other than FragmentDefinition and OperationDefinition are
skipped by the plugin loops. -/
inductive Definition where
  | fragmentDefinition (node : FragmentDefinitionNode)
  | operationDefinition (selectionSet : Option (List Selection))
  | otherDefinition

/-- A documents entry; its `document` field may be absent, in which case both
plugin loops skip the entry (src/plugin.ts, `if (documentFile.document)`). -/
structure DocumentFile where
  document : Option (List Definition)

/-- A loaded fragment as pushed by the plugin's extraction loop
(src/plugin.ts, allFragments). -/
structure LoadedFragment where
  node : FragmentDefinitionNode
  name : String
  onType : String
  isExternal : Bool

/-- The body of findFragmentSpreads' loop over a concrete selections list
(src/plugin.ts, findFragmentSpreads): a fragment spread is pushed and not
recursed into; any other selection with a nested selection set is recursed
into and its spreads appended. -/
def findSpreadsList : List Selection → List FragmentSpreadNode
  | [] => []
  | Selection.fragmentSpread node :: rest => node :: findSpreadsList rest
  | Selection.field none :: rest => findSpreadsList rest
  | Selection.field (some sub) :: rest => findSpreadsList sub ++ findSpreadsList rest
  | Selection.inlineFragment none :: rest => findSpreadsList rest
  | Selection.inlineFragment (some sub) :: rest => findSpreadsList sub ++ findSpreadsList rest

/-- Recursively find all fragment spreads in a selection set
(src/plugin.ts, findFragmentSpreads); an absent selection set (or one without
a selections array) yields the empty list. -/
def findFragmentSpreads : Option (List Selection) → List FragmentSpreadNode
  | none => []
  | some sels => findSpreadsList sels

/-- A fragment-spread node reachable from a single selection: the selection
itself when it is a spread, or any spread reachable through the nested
selection set of a field or inline fragment.  Fragment spreads are never
recursed into. -/
inductive SpreadReachable : Selection → FragmentSpreadNode → Prop where
  | spread (node : FragmentSpreadNode) :
      SpreadReachable (Selection.fragmentSpread node) node
  | fieldSub {sub : List Selection} {s : Selection} {node : FragmentSpreadNode} :
      s ∈ sub → SpreadReachable s node →
      SpreadReachable (Selection.field (some sub)) node
  | inlineSub {sub : List Selection} {s : Selection} {node : FragmentSpreadNode} :
      s ∈ sub → SpreadReachable s node →
      SpreadReachable (Selection.inlineFragment (some sub)) node

theorem mem_findSpreadsList_iff (sels : List Selection) (node : FragmentSpreadNode) :
    node ∈ findSpreadsList sels ↔ ∃ s ∈ sels, SpreadReachable s node :=
  match sels with
  | [] => by simp [findSpreadsList]
  | Selection.fragmentSpread n :: rest => by
      have ih := mem_findSpreadsList_iff rest node
      simp only [findSpreadsList, List.mem_cons, ih]
      constructor
      · rintro (rfl | ⟨t, ht, hr⟩)
        · exact ⟨Selection.fragmentSpread node, Or.inl rfl,
            SpreadReachable.spread node⟩
        · exact ⟨t, Or.inr ht, hr⟩
      · rintro ⟨t, rfl | ht, hr⟩
        · cases hr; exact Or.inl rfl
        · exact Or.inr ⟨t, ht, hr⟩
  | Selection.field none :: rest => by
      have ih := mem_findSpreadsList_iff rest node
      simp only [findSpreadsList, List.mem_cons, ih]
      constructor
      · rintro ⟨t, ht, hr⟩
        exact ⟨t, Or.inr ht, hr⟩
      · rintro ⟨t, rfl | ht, hr⟩
        · cases hr
        · exact ⟨t, ht, hr⟩
  | Selection.field (some ss) :: rest => by
      have ih := mem_findSpreadsList_iff rest node
      have ihs := mem_findSpreadsList_iff ss node
      simp only [findSpreadsList, List.mem_append, List.mem_cons, ih, ihs]
      constructor
      · rintro (⟨t, ht, hr⟩ | ⟨t, ht, hr⟩)
        · exact ⟨Selection.field (some ss), Or.inl rfl,
            SpreadReachable.fieldSub ht hr⟩
        · exact ⟨t, Or.inr ht, hr⟩
      · rintro ⟨t, rfl | ht, hr⟩
        · cases hr with
          | fieldSub hmem hr => exact Or.inl ⟨_, hmem, hr⟩
        · exact Or.inr ⟨t, ht, hr⟩
  | Selection.inlineFragment none :: rest => by
      have ih := mem_findSpreadsList_iff rest node
      simp only [findSpreadsList, List.mem_cons, ih]
      constructor
      · rintro ⟨t, ht, hr⟩
        exact ⟨t, Or.inr ht, hr⟩
      · rintro ⟨t, rfl | ht, hr⟩
        · cases hr
        · exact ⟨t, ht, hr⟩
  | Selection.inlineFragment (some ss) :: rest => by
      have ih := mem_findSpreadsList_iff rest node
      have ihs := mem_findSpreadsList_iff ss node
      simp only [findSpreadsList, List.mem_append, List.mem_cons, ih, ihs]
      constructor
      · rintro (⟨t, ht, hr⟩ | ⟨t, ht, hr⟩)
        · exact ⟨Selection.inlineFragment (some ss), Or.inl rfl,
            SpreadReachable.inlineSub ht hr⟩
        · exact ⟨t, Or.inr ht, hr⟩
      · rintro ⟨t, rfl | ht, hr⟩
        · cases hr with
          | inlineSub hmem hr => exact Or.inl ⟨_, hmem, hr⟩
        · exact Or.inr ⟨t, ht, hr⟩
termination_by sizeOf sels
decreasing_by
  all_goals simp_wf
  all_goals omega

/-- The plugin configuration (src/types.ts, FragmentArgumentLinterConfig):
a single recognized option, absent when the user's configuration omits it. -/
structure FragmentArgumentLinterConfig where
  requireArgumentDefinitions : Option Bool
deriving DecidableEq, Repr

/-- The configuration with defaults applied (src/plugin.ts, configWithDefaults):
an omitted requireArgumentDefinitions defaults to true. -/
structure RequiredConfig where
  requireArgumentDefinitions : Bool
deriving DecidableEq, Repr

/-- Default application for the configuration (src/plugin.ts, lines 18-20). -/
def configWithDefaults (config : FragmentArgumentLinterConfig) : RequiredConfig :=
  { requireArgumentDefinitions := config.requireArgumentDefinitions.getD true }

/-- A collected fragment-spread record: the spread name, whether its directive
list contains the arguments directive, and its location. -/
structure FragmentSpreadRecord where
  fragmentName : String
  suppliesArguments : Bool
  loc : Option Location
deriving DecidableEq, Repr

/-- The mutable state of a FragmentArgumentVisitor during one run: the ordered
issue list, the fragments-checked counter and the fragments-with-issues set
(src/visitor.ts), together with the definition index built during pass 1 and
the spread records collected during pass 2. -/
structure VisitorState where
  issues : List ValidationIssue
  fragmentsChecked : Nat
  fragmentsWithIssues : Finset String
  definitionIndex : List (String × Bool)
  spreads : List FragmentSpreadRecord
deriving DecidableEq

/-- The visitor state of a freshly constructed visitor. -/
def initialState : VisitorState :=
  { issues := [], fragmentsChecked := 0, fragmentsWithIssues := ∅,
    definitionIndex := [], spreads := [] }

/-- Add a validation issue (src/visitor.ts, addIssue): push the issue onto the
ordered issue list and add its fragment name to the fragments-with-issues set. -/
def addIssue (st : VisitorState) (issue : ValidationIssue) : VisitorState :=
  { st with issues := st.issues ++ [issue],
            fragmentsWithIssues := insert issue.fragmentName st.fragmentsWithIssues }

/-- Get all validation issues (src/visitor.ts, getIssues). -/
def getIssues (st : VisitorState) : List ValidationIssue :=
  st.issues

/-- Statistics about the linting process (src/visitor.ts, getStats). -/
structure Stats where
  fragmentsChecked : Nat
  fragmentsWithIssues : Nat
  totalIssues : Nat
deriving DecidableEq, Repr

/-- Get statistics about the linting process (src/visitor.ts, getStats). -/
def getStats (st : VisitorState) : Stats :=
  { fragmentsChecked := st.fragmentsChecked,
    fragmentsWithIssues := st.fragmentsWithIssues.card,
    totalIssues := st.issues.length }

/-- Whether a (possibly absent) directive list contains a directive of the
given name: an absent list behaves like an empty one. -/
def hasDirective (directives : Option (List String)) (name : String) : Bool :=
  (directives.getD []).contains name

/-- The error message of a definition lacking the argument-definitions
directive. -/
def missingDefinitionsMessage (fragmentName : String) : String :=
  "Fragment \"" ++ fragmentName ++ "\" must have @argumentDefinitions directive"

/-- Modelled from the spec: validateFragment of the current visitor (the
visitor source file in the repository predates the argument-definitions rule,
which is exercised only through plugin.ts and the visitor tests).  Increments
the fragments-checked counter, indexes the fragment name with its
declares-parameters flag (computed by scanning the definition's directive list
for the argument-definitions directive), and, when the require-parameter-
declarations policy is enabled and the flag is false, emits one error-level
issue attributed to the fragment name with location taken from the definition
node when available. -/
def validateFragment (cfg : RequiredConfig) (st : VisitorState)
    (fragmentName : String) (node : FragmentDefinitionNode) : VisitorState :=
  let declares := hasDirective node.directives "argumentDefinitions"
  let st := { st with fragmentsChecked := st.fragmentsChecked + 1,
                      definitionIndex := (fragmentName, declares) :: st.definitionIndex }
  if cfg.requireArgumentDefinitions && !declares then
    addIssue st { level := Level.error,
                  message := missingDefinitionsMessage fragmentName,
                  fragmentName := fragmentName,
                  location := node.loc }
  else st

/-- Modelled from the spec: collectSpread of the current visitor (missing from
the repository's stale visitor source) — records one spread as name,
supplies-arguments flag (the spread's directive list contains the arguments
directive) and location; pure data capture, no validation. -/
def collectFragmentSpread (st : VisitorState) (node : FragmentSpreadNode) : VisitorState :=
  { st with spreads := st.spreads ++
      [{ fragmentName := node.fragmentName,
         suppliesArguments := hasDirective node.directives "arguments",
         loc := node.loc }] }

/-- The error message of a spread missing the arguments directive. -/
def missingArgumentsMessage (fragmentName : String) : String :=
  "Fragment \"" ++ fragmentName ++ "\" must have @arguments directive"

/-- The error message of a spread supplying arguments for a fragment that
declares none. -/
def unexpectedArgumentsMessage (fragmentName : String) : String :=
  "Fragment \"" ++ fragmentName ++ "\" does not define @argumentDefinitions"

/-- Modelled from the spec: the per-spread step of the Matcher (missing from
the repository's stale visitor source).  Looks the spread's fragment name up
in the definition index; an absent definition makes the whole run fail (the
source throws unconditionally on lookup failure); a declares/supplies mismatch
emits exactly one error-level issue attributed to the spread's fragment name
with the spread's location; agreement of the two flags emits nothing. -/
def matchSpread (index : List (String × Bool)) (st : VisitorState)
    (s : FragmentSpreadRecord) : Except String VisitorState :=
  match index.lookup s.fragmentName with
  | none => Except.error ("Fragment \"" ++ s.fragmentName ++ "\" is not defined")
  | some declares =>
    if declares && !s.suppliesArguments then
      Except.ok (addIssue st { level := Level.error,
                               message := missingArgumentsMessage s.fragmentName,
                               fragmentName := s.fragmentName,
                               location := s.loc })
    else if !declares && s.suppliesArguments then
      Except.ok (addIssue st { level := Level.error,
                               message := unexpectedArgumentsMessage s.fragmentName,
                               fragmentName := s.fragmentName,
                               location := s.loc })
    else
      Except.ok st

/-- Run the Matcher over a list of spread records in collection order,
threading the visitor state and propagating a lookup failure. -/
def spreadsFold (index : List (String × Bool)) :
    VisitorState → List FragmentSpreadRecord → Except String VisitorState
  | st, [] => Except.ok st
  | st, s :: rest =>
    match matchSpread index st s with
    | Except.error e => Except.error e
    | Except.ok st' => spreadsFold index st' rest

/-- Modelled from the spec: validateFragmentSpreads of the current visitor
(missing from the repository's stale visitor source) — run the Matcher once
over every collected spread against the definition index built in pass 1. -/
def validateFragmentSpreads (st : VisitorState) : Except String VisitorState :=
  spreadsFold st.definitionIndex st st.spreads

/-- Fragments extracted from one documents entry (src/plugin.ts, first loop):
an absent document contributes nothing; otherwise every FragmentDefinition is
pushed as a LoadedFragment. -/
def fragmentsOfDocument (d : DocumentFile) : List LoadedFragment :=
  match d.document with
  | none => []
  | some defs => defs.filterMap fun df =>
      match df with
      | Definition.fragmentDefinition node =>
          some { node := node, name := node.name, onType := node.typeCondition,
                 isExternal := false }
      | _ => none

/-- All fragments extracted from the documents, in document order
(src/plugin.ts, allFragments). -/
def allFragments (documents : List DocumentFile) : List LoadedFragment :=
  documents.flatMap fragmentsOfDocument

/-- Fragment-spread nodes found in one documents entry (src/plugin.ts, second
loop): an absent document contributes nothing; otherwise every operation or
fragment definition's selection set is searched recursively. -/
def spreadsOfDocument (d : DocumentFile) : List FragmentSpreadNode :=
  match d.document with
  | none => []
  | some defs => defs.flatMap fun df =>
      match df with
      | Definition.fragmentDefinition node => findFragmentSpreads node.selectionSet
      | Definition.operationDefinition ss => findFragmentSpreads ss
      | Definition.otherDefinition => []

/-- All fragment-spread nodes collected from the documents, in document order
(src/plugin.ts, second loop). -/
def allSpreadNodes (documents : List DocumentFile) : List FragmentSpreadNode :=
  documents.flatMap spreadsOfDocument

/-- The three visitor passes of the plugin run (src/plugin.ts, lines 41-68):
validate every fragment definition, collect every fragment spread, then
validate the spreads against the definitions. -/
def runVisitor (documents : List DocumentFile) (cfg : RequiredConfig) :
    Except String VisitorState :=
  let st1 := (allFragments documents).foldl
    (fun st f => validateFragment cfg st f.name f.node) initialState
  let st2 := (allSpreadNodes documents).foldl collectFragmentSpread st1
  validateFragmentSpreads st2

/-- Icon for an issue level (src/plugin.ts, getIconForLevel). -/
def getIconForLevel : Level → String
  | Level.error => "❌"
  | Level.warning => "⚠️"
  | Level.info => "ℹ️"

/-- Upper-cased name of an issue level (src/plugin.ts, issue.level.toUpperCase()). -/
def levelUpper : Level → String
  | Level.error => "ERROR"
  | Level.warning => "WARNING"
  | Level.info => "INFO"

/-- One rendered issue line of the report (src/plugin.ts, generateReport inner
loop). -/
def formatIssueLine (issue : ValidationIssue) : String :=
  let location := match issue.location with
    | some l => " (line " ++ toString l.line ++ ", column " ++ toString l.column ++ ")"
    | none => ""
  getIconForLevel issue.level ++ " **" ++ levelUpper issue.level ++ "**: " ++
    issue.message ++ location

/-- Append one issue to an insertion-ordered grouping, modelling the JS Map
used by generateReport: an existing key keeps its place and its issue list is
extended at the end; a new key is appended after all existing keys. -/
def insertIssue : List (String × List ValidationIssue) → ValidationIssue →
    List (String × List ValidationIssue)
  | [], issue => [(issue.fragmentName, [issue])]
  | (k, g) :: rest, issue =>
    if k = issue.fragmentName then (k, g ++ [issue]) :: rest
    else (k, g) :: insertIssue rest issue

/-- Group issues by fragment name in insertion order (src/plugin.ts,
generateReport, issuesByFragment). -/
def groupByFragment (issues : List ValidationIssue) :
    List (String × List ValidationIssue) :=
  issues.foldl insertIssue []

/-- Get a fragment's issue group from the insertion-ordered grouping,
modelling the JS Map get used by generateReport. -/
def lookupGroup : List (String × List ValidationIssue) → String →
    Option (List ValidationIssue)
  | [], _ => none
  | (k, g) :: rest, name => if k = name then some g else lookupGroup rest name

/-- The report sections: fragment names sorted lexicographically, each paired
with its issues in emission order (src/plugin.ts, generateReport,
sortedFragmentNames and the section loop). -/
def reportSections (issues : List ValidationIssue) :
    List (String × List ValidationIssue) :=
  let grouped := groupByFragment issues
  let sortedNames := (grouped.map Prod.fst).mergeSort (fun a b => decide (a ≤ b))
  sortedNames.map fun name => (name, (lookupGroup grouped name).getD [])

/-- Generate a formatted report from validation issues (src/plugin.ts,
generateReport): a summary header, then, when issues exist, one section per
fragment name in lexicographic order with that fragment's issues in emission
order. -/
def generateReport (issues : List ValidationIssue) (stats : Stats) : String :=
  let header := ["# GraphQL Fragment Argument Linter Report", "",
                 "## Summary",
                 "- Fragments with issues: " ++ toString stats.fragmentsWithIssues,
                 "- Total issues: " ++ toString stats.totalIssues, ""]
  if issues.isEmpty then
    String.intercalate "\n" (header ++ ["✅ No issues found! All fragments are valid."])
  else
    let body := (reportSections issues).flatMap fun sec =>
      ["### Fragment: " ++ sec.1, ""] ++ sec.2.map formatIssueLine ++ [""]
    String.intercalate "\n" (header ++ ["## Issues Found", ""] ++ body)

/-- The failure message thrown when error-level issues exist (src/plugin.ts,
lines 74-79). -/
def failureMessage (errorCount : Nat) (report : String) : String :=
  "Fragment Argument Linter failed with " ++ toString errorCount ++
    " error(s):\n\n" ++ report

/-- The main plugin function (src/plugin.ts, plugin): apply configuration
defaults, run the three visitor passes, then throw ( `Except.error` ) carrying
the full formatted report when at least one error-level issue was collected,
and return the formatted report otherwise.  A failure of the matching pass
itself propagates. -/
def plugin (documents : List DocumentFile) (config : FragmentArgumentLinterConfig) :
    Except String String :=
  let cfg := configWithDefaults config
  match runVisitor documents cfg with
  | Except.error e => Except.error e
  | Except.ok st =>
    let issues := getIssues st
    let stats := getStats st
    let errors := issues.filter fun i => i.level == Level.error
    if errors.length > 0 then
      Except.error (failureMessage errors.length (generateReport issues stats))
    else
      Except.ok (generateReport issues stats)

namespace Visitor

/-- A custom validation rule (src/types.ts, CustomRule). -/
structure CustomRule where
  name : String
  validate : String → List FragmentArgument → List ValidationIssue

/-- The configuration consumed by the visitor source file
(src/visitor.ts together with the options it reads); every option may be
absent. -/
structure Config where
  strictMode : Option Bool
  ignoreFragments : Option (List String)
  requireExplicitTypes : Option Bool
  requireDocumentation : Option Bool
  customRules : Option (List CustomRule)

/-- The visitor's private state (src/visitor.ts, fields issues,
fragmentsChecked and fragmentsWithIssues). -/
structure State where
  issues : List ValidationIssue
  fragmentsChecked : Nat
  fragmentsWithIssues : Finset String

/-- The state of a freshly constructed visitor. -/
def initialState : State :=
  { issues := [], fragmentsChecked := 0, fragmentsWithIssues := ∅ }

/-- Add a validation issue (src/visitor.ts, addIssue). -/
def addIssue (st : State) (issue : ValidationIssue) : State :=
  { st with issues := st.issues ++ [issue],
            fragmentsWithIssues := insert issue.fragmentName st.fragmentsWithIssues }

/-- Extract arguments from a fragment definition (src/visitor.ts,
extractFragmentArguments): one placeholder argument is pushed per
argument-definitions directive in the definition's directive list. -/
def extractFragmentArguments (node : FragmentDefinitionNode) : List FragmentArgument :=
  ((node.directives.getD []).filter fun d => d == "argumentDefinitions").map
    fun _ => { name := "exampleArg", type := some "String",
               defaultValue := none, description := none }

/-- JavaScript falsiness of an optional string: absent or empty. -/
def strFalsy : Option String → Bool
  | none => true
  | some s => s.isEmpty

/-- Validate that all arguments have explicit types (src/visitor.ts,
validateExplicitTypes). -/
def validateExplicitTypes (fragmentName : String) (st : State)
    (args : List FragmentArgument) : State :=
  args.foldl (fun st arg =>
    if strFalsy arg.type then
      addIssue st { level := Level.error,
                    message := "Fragment argument \"" ++ arg.name ++
                      "\" must have an explicit type",
                    fragmentName := fragmentName, location := none }
    else st) st

/-- Validate that all arguments have documentation (src/visitor.ts,
validateDocumentation). -/
def validateDocumentation (fragmentName : String) (st : State)
    (args : List FragmentArgument) : State :=
  args.foldl (fun st arg =>
    if strFalsy arg.description then
      addIssue st { level := Level.warning,
                    message := "Fragment argument \"" ++ arg.name ++
                      "\" should have documentation",
                    fragmentName := fragmentName, location := none }
    else st) st

/-- The PascalCase convention of validateStrictMode: an upper-case ASCII
letter followed by ASCII letters and digits. -/
def isPascalCase (s : String) : Bool :=
  match s.data with
  | [] => false
  | c :: rest => c.isUpper && rest.all fun ch => ch.isAlpha || ch.isDigit

/-- The camelCase convention of validateStrictMode: a lower-case ASCII letter
followed by ASCII letters and digits. -/
def isCamelCase (s : String) : Bool :=
  match s.data with
  | [] => false
  | c :: rest => c.isLower && rest.all fun ch => ch.isAlpha || ch.isDigit

/-- Validate strict-mode naming requirements (src/visitor.ts,
validateStrictMode). -/
def validateStrictMode (fragmentName : String) (st : State)
    (args : List FragmentArgument) : State :=
  if args.length > 0 then
    let st :=
      if !isPascalCase fragmentName then
        addIssue st { level := Level.error,
                      message := "Fragment \"" ++ fragmentName ++
                        "\" with arguments must use PascalCase naming",
                      fragmentName := fragmentName, location := none }
      else st
    args.foldl (fun st arg =>
      if !isCamelCase arg.name then
        addIssue st { level := Level.error,
                      message := "Fragment argument \"" ++ arg.name ++
                        "\" must use camelCase naming",
                      fragmentName := fragmentName, location := none }
      else st) st
  else st

/-- Apply the configured custom rules (src/visitor.ts, validateFragment,
customRules loop): each rule's issues are pushed wholesale and the validated
fragment's name joins the fragments-with-issues set when the rule produced at
least one issue. -/
def applyCustomRules (fragmentName : String) (args : List FragmentArgument)
    (st : State) (rules : List CustomRule) : State :=
  rules.foldl (fun st rule =>
    let ruleIssues := rule.validate fragmentName args
    let st := { st with issues := st.issues ++ ruleIssues }
    if ruleIssues.length > 0 then
      { st with fragmentsWithIssues := insert fragmentName st.fragmentsWithIssues }
    else st) st

/-- Validate a fragment definition (src/visitor.ts, validateFragment): the
fragments-checked counter is incremented first; a fragment listed in
ignoreFragments is then skipped; otherwise the configured validations run. -/
def validateFragment (cfg : Config) (st : State) (fragmentName : String)
    (node : FragmentDefinitionNode) : State :=
  let st := { st with fragmentsChecked := st.fragmentsChecked + 1 }
  if (cfg.ignoreFragments.getD []).contains fragmentName then st
  else
    let args := extractFragmentArguments node
    let st := if cfg.requireExplicitTypes ≠ some false then
      validateExplicitTypes fragmentName st args else st
    let st := if cfg.requireDocumentation = some true then
      validateDocumentation fragmentName st args else st
    let st := if cfg.strictMode = some true then
      validateStrictMode fragmentName st args else st
    match cfg.customRules with
    | some rules => applyCustomRules fragmentName args st rules
    | none => st

/-- Get all validation issues (src/visitor.ts, getIssues). -/
def getIssues (st : State) : List ValidationIssue :=
  st.issues

/-- Get statistics about the linting process (src/visitor.ts, getStats). -/
def getStats (st : State) : Stats :=
  { fragmentsChecked := st.fragmentsChecked,
    fragmentsWithIssues := st.fragmentsWithIssues.card,
    totalIssues := st.issues.length }

end Visitor

/-- C2: for every selection set, findFragmentSpreads returns exactly the
fragment-spread nodes reachable from it through nested field and
inline-fragment selection sets, in depth-first left-to-right source order; a
fragment spread is included in the result and never recursed into, and an
empty or absent selection set yields the empty sequence.  The first six
conjuncts are the recursion equations that pin the depth-first left-to-right
order; the last characterizes the result's members as exactly the reachable
spread nodes. -/
theorem findFragmentSpreads_spec :
    findFragmentSpreads none = []
    ∧ findFragmentSpreads (some []) = []
    ∧ (∀ sels, findFragmentSpreads (some sels) = findSpreadsList sels)
    ∧ (∀ node rest, findSpreadsList (Selection.fragmentSpread node :: rest) =
        node :: findSpreadsList rest)
    ∧ (∀ sub rest, findSpreadsList (Selection.field sub :: rest) =
        findFragmentSpreads sub ++ findSpreadsList rest)
    ∧ (∀ sub rest, findSpreadsList (Selection.inlineFragment sub :: rest) =
        findFragmentSpreads sub ++ findSpreadsList rest)
    ∧ (∀ sels node, node ∈ findFragmentSpreads (some sels) ↔
        ∃ s ∈ sels, SpreadReachable s node) := by
  refine ⟨rfl, by simp [findFragmentSpreads, findSpreadsList], fun _ => rfl, ?_, ?_, ?_, ?_⟩
  · intro node rest
    simp [findFragmentSpreads, findSpreadsList]
  · intro sub rest
    cases sub <;> simp [findSpreadsList, findFragmentSpreads]
  · intro sub rest
    cases sub <;> simp [findSpreadsList, findFragmentSpreads]
  · intro sels node
    exact mem_findSpreadsList_iff sels node

/-- C1: for every collected fragment spread processed by the matching pass,
the outcome is a function of existence and the two directive flags: a
definition declaring parameters together with a spread supplying none emits
exactly one error issue for the spread; a definition declaring none together
with a spread supplying arguments emits exactly one error issue; agreement of
the two flags emits nothing.  The final conjunct records that addIssue
appends exactly one issue. -/
theorem matcher_outcome (index : List (String × Bool)) (st : VisitorState)
    (s : FragmentSpreadRecord) :
    (index.lookup s.fragmentName = some true → s.suppliesArguments = false →
      matchSpread index st s = Except.ok (addIssue st
        { level := Level.error, message := missingArgumentsMessage s.fragmentName,
          fragmentName := s.fragmentName, location := s.loc }))
    ∧ (index.lookup s.fragmentName = some false → s.suppliesArguments = true →
      matchSpread index st s = Except.ok (addIssue st
        { level := Level.error, message := unexpectedArgumentsMessage s.fragmentName,
          fragmentName := s.fragmentName, location := s.loc }))
    ∧ (∀ d, index.lookup s.fragmentName = some d → s.suppliesArguments = d →
      matchSpread index st s = Except.ok st)
    ∧ (∀ issue, (addIssue st issue).issues = st.issues ++ [issue]) := by
  refine ⟨?_, ?_, ?_, fun _ => rfl⟩
  · intro hl hs
    simp [matchSpread, hl, hs]
  · intro hl hs
    simp [matchSpread, hl, hs]
  · intro d hl hs
    cases d <;> simp [matchSpread, hl, hs]

/-- Concrete instance of the matcher outcome: a definition declaring
parameters spread without arguments produces exactly the missing-arguments
error issue. -/
theorem matcher_outcome_witness :
    matchSpread [("UserFields", true)] initialState
      { fragmentName := "UserFields", suppliesArguments := false, loc := none } =
    Except.ok (addIssue initialState
      { level := Level.error, message := missingArgumentsMessage "UserFields",
        fragmentName := "UserFields", location := none }) :=
  (matcher_outcome [("UserFields", true)] initialState
    { fragmentName := "UserFields", suppliesArguments := false, loc := none }).1
    (by decide) rfl

/-- C4: when the configuration omits requireArgumentDefinitions it defaults to
true, and then validating a fragment definition whose directive list does not
contain the argument-definitions directive emits exactly one error-level issue
attributed to the fragment's name, with location taken from the definition
node. -/
theorem default_config_flags_missing_declarations
    (config : FragmentArgumentLinterConfig)
    (h : config.requireArgumentDefinitions = none)
    (st : VisitorState) (name : String) (node : FragmentDefinitionNode)
    (hd : hasDirective node.directives "argumentDefinitions" = false) :
    (configWithDefaults config).requireArgumentDefinitions = true
    ∧ validateFragment (configWithDefaults config) st name node =
        addIssue { st with fragmentsChecked := st.fragmentsChecked + 1,
                           definitionIndex := (name, false) :: st.definitionIndex }
          { level := Level.error, message := missingDefinitionsMessage name,
            fragmentName := name, location := node.loc }
    ∧ (validateFragment (configWithDefaults config) st name node).issues =
        st.issues ++ [{ level := Level.error,
                        message := missingDefinitionsMessage name,
                        fragmentName := name, location := node.loc }] := by
  have hc : (configWithDefaults config).requireArgumentDefinitions = true := by
    simp [configWithDefaults, h]
  refine ⟨hc, ?_, ?_⟩ <;>
    simp [validateFragment, hc, hd, addIssue]

/-- Concrete instance: with an empty configuration, a fragment with no
directives produces exactly the missing-argument-definitions error. -/
theorem default_config_flags_missing_declarations_witness :
    (validateFragment (configWithDefaults { requireArgumentDefinitions := none })
        initialState "UserFields"
        { name := "UserFields", typeCondition := "User", directives := none,
          selectionSet := none, loc := some { line := 2, column := 9 } }).issues =
      [{ level := Level.error,
         message := missingDefinitionsMessage "UserFields",
         fragmentName := "UserFields",
         location := some { line := 2, column := 9 } }] :=
  (default_config_flags_missing_declarations
    { requireArgumentDefinitions := none } rfl initialState "UserFields"
    { name := "UserFields", typeCondition := "User", directives := none,
      selectionSet := none, loc := some { line := 2, column := 9 } } rfl).2.2

/-- A fold whose step preserves the fragments-checked counter preserves it as
a whole. -/
theorem foldl_fragmentsChecked {α : Type} (f : Visitor.State → α → Visitor.State)
    (hf : ∀ st a, (f st a).fragmentsChecked = st.fragmentsChecked)
    (l : List α) (st : Visitor.State) :
    (l.foldl f st).fragmentsChecked = st.fragmentsChecked := by
  induction l generalizing st with
  | nil => rfl
  | cons a rest ih => rw [List.foldl_cons, ih, hf]

theorem validateExplicitTypes_fragmentsChecked (name : String)
    (st : Visitor.State) (args : List FragmentArgument) :
    (Visitor.validateExplicitTypes name st args).fragmentsChecked =
      st.fragmentsChecked := by
  unfold Visitor.validateExplicitTypes
  exact foldl_fragmentsChecked _ (by intro st a; split <;> rfl) args st

theorem validateDocumentation_fragmentsChecked (name : String)
    (st : Visitor.State) (args : List FragmentArgument) :
    (Visitor.validateDocumentation name st args).fragmentsChecked =
      st.fragmentsChecked := by
  unfold Visitor.validateDocumentation
  exact foldl_fragmentsChecked _ (by intro st a; split <;> rfl) args st

theorem validateStrictMode_fragmentsChecked (name : String)
    (st : Visitor.State) (args : List FragmentArgument) :
    (Visitor.validateStrictMode name st args).fragmentsChecked =
      st.fragmentsChecked := by
  unfold Visitor.validateStrictMode
  split
  · rw [foldl_fragmentsChecked _ (by intro st a; split <;> rfl) args]
    split <;> rfl
  · rfl

theorem applyCustomRules_fragmentsChecked (name : String)
    (args : List FragmentArgument) (st : Visitor.State)
    (rules : List Visitor.CustomRule) :
    (Visitor.applyCustomRules name args st rules).fragmentsChecked =
      st.fragmentsChecked := by
  unfold Visitor.applyCustomRules
  refine foldl_fragmentsChecked _ ?_ rules st
  intro st a
  by_cases h : 0 < (a.validate name args).length <;> simp [h]

theorem validateFragment_fragmentsChecked (cfg : Visitor.Config)
    (st : Visitor.State) (name : String) (node : FragmentDefinitionNode) :
    (Visitor.validateFragment cfg st name node).fragmentsChecked =
      st.fragmentsChecked + 1 := by
  unfold Visitor.validateFragment
  split
  · rfl
  · cases hrules : cfg.customRules with
    | none =>
      simp only [hrules]
      split <;> split <;> split <;>
        simp [validateStrictMode_fragmentsChecked,
          validateDocumentation_fragmentsChecked,
          validateExplicitTypes_fragmentsChecked]
    | some rules =>
      simp only [hrules]
      rw [applyCustomRules_fragmentsChecked]
      split <;> split <;> split <;>
        simp [validateStrictMode_fragmentsChecked,
          validateDocumentation_fragmentsChecked,
          validateExplicitTypes_fragmentsChecked]

/-- Validating a list of fragments adds the list's length to the
fragments-checked counter, ignored fragments included. -/
theorem foldl_validateFragment_count (cfg : Visitor.Config)
    (frags : List (String × FragmentDefinitionNode)) (st : Visitor.State) :
    ((frags.foldl (fun s p => Visitor.validateFragment cfg s p.1 p.2) st)).fragmentsChecked
      = st.fragmentsChecked + frags.length := by
  induction frags generalizing st with
  | nil => rfl
  | cons p rest ih =>
    rw [List.foldl_cons, ih, validateFragment_fragmentsChecked, List.length_cons]
    omega

/-- C9: every call to validateFragment increments the fragmentsChecked
counter, including calls for fragments listed in the ignoreFragments
configuration (the counter is incremented before the ignore check returns
early), so getStats().fragmentsChecked equals the total number of fragment
definitions visited, not the number actually validated. -/
theorem fragmentsChecked_counts_every_visit (cfg : Visitor.Config)
    (st : Visitor.State) (name : String) (node : FragmentDefinitionNode) :
    (Visitor.validateFragment cfg st name node).fragmentsChecked =
        st.fragmentsChecked + 1
    ∧ ((cfg.ignoreFragments.getD []).contains name = true →
        Visitor.validateFragment cfg st name node =
          { st with fragmentsChecked := st.fragmentsChecked + 1 })
    ∧ (∀ frags : List (String × FragmentDefinitionNode),
        (Visitor.getStats (frags.foldl
            (fun s p => Visitor.validateFragment cfg s p.1 p.2) st)).fragmentsChecked
          = st.fragmentsChecked + frags.length) := by
  refine ⟨validateFragment_fragmentsChecked cfg st name node, ?_, ?_⟩
  · intro hin
    unfold Visitor.validateFragment
    split
    · rfl
    · rename_i h
      exact absurd hin h
  · intro frags
    exact foldl_validateFragment_count cfg frags st

/-- Concrete instance: an ignored fragment still bumps the counter and changes
nothing else. -/
theorem fragmentsChecked_counts_every_visit_witness :
    Visitor.validateFragment
        { strictMode := none, ignoreFragments := some ["IgnoredFragment"],
          requireExplicitTypes := none, requireDocumentation := none,
          customRules := none }
        Visitor.initialState "IgnoredFragment"
        { name := "IgnoredFragment", typeCondition := "User", directives := none,
          selectionSet := none, loc := none } =
      { Visitor.initialState with fragmentsChecked := 1 } :=
  (fragmentsChecked_counts_every_visit
    { strictMode := none, ignoreFragments := some ["IgnoredFragment"],
      requireExplicitTypes := none, requireDocumentation := none,
      customRules := none }
    Visitor.initialState "IgnoredFragment"
    { name := "IgnoredFragment", typeCondition := "User", directives := none,
      selectionSet := none, loc := none }).2.1 (by decide)

/-- C10: a documents entry whose document field is absent contributes nothing
to a run — it adds no fragment to the definition index, no spread to the
spread collection, and its presence leaves the plugin's output for the
remaining documents unchanged. -/
theorem absent_document_contributes_nothing (pre post : List DocumentFile)
    (config : FragmentArgumentLinterConfig) (d : DocumentFile)
    (h : d.document = none) :
    fragmentsOfDocument d = []
    ∧ spreadsOfDocument d = []
    ∧ plugin (pre ++ d :: post) config = plugin (pre ++ post) config := by
  have hf : fragmentsOfDocument d = [] := by
    unfold fragmentsOfDocument
    rw [h]
  have hs : spreadsOfDocument d = [] := by
    unfold spreadsOfDocument
    rw [h]
  refine ⟨hf, hs, ?_⟩
  have hfa : allFragments (pre ++ d :: post) = allFragments (pre ++ post) := by
    simp [allFragments, hf]
  have hsa : allSpreadNodes (pre ++ d :: post) = allSpreadNodes (pre ++ post) := by
    simp [allSpreadNodes, hs]
  unfold plugin runVisitor
  rw [hfa, hsa]

/-- Concrete instance: a single absent document behaves like an empty
document list. -/
theorem absent_document_contributes_nothing_witness :
    plugin [{ document := none }] { requireArgumentDefinitions := none } =
      plugin [] { requireArgumentDefinitions := none } :=
  (absent_document_contributes_nothing [] [] { requireArgumentDefinitions := none }
    { document := none } rfl).2.2

/-- The matching fold succeeds exactly when every spread in the list resolves
in the definition index. -/
theorem spreadsFold_ok_iff (index : List (String × Bool))
    (l : List FragmentSpreadRecord) (st : VisitorState) :
    (∃ st', spreadsFold index st l = Except.ok st') ↔
      ∀ s ∈ l, (index.lookup s.fragmentName).isSome := by
  induction l generalizing st with
  | nil => simp [spreadsFold]
  | cons s rest ih =>
    constructor
    · rintro ⟨st', hok⟩
      unfold spreadsFold at hok
      intro t ht
      rcases List.mem_cons.mp ht with rfl | ht
      · cases hl : index.lookup t.fragmentName with
        | none => rw [matchSpread, hl] at hok; cases hok
        | some d => simp [hl]
      · cases hm : matchSpread index st s with
        | error e => rw [hm] at hok; cases hok
        | ok st₁ =>
          rw [hm] at hok
          exact (ih st₁).mp ⟨st', hok⟩ t ht
    · intro hall
      have hs : (index.lookup s.fragmentName).isSome :=
        hall s (List.mem_cons_self s rest)
      cases hl : index.lookup s.fragmentName with
      | none => rw [hl] at hs; cases hs
      | some d =>
        have hrest : ∀ t ∈ rest, (index.lookup t.fragmentName).isSome :=
          fun t ht => hall t (List.mem_cons_of_mem s ht)
        have step : ∃ st₁, matchSpread index st s = Except.ok st₁ := by
          simp only [matchSpread, hl]
          split
          · exact ⟨_, rfl⟩
          · split
            · exact ⟨_, rfl⟩
            · exact ⟨_, rfl⟩
        obtain ⟨st₁, hst₁⟩ := step
        obtain ⟨st', hst'⟩ := (ih st₁).mpr hrest
        exact ⟨st', by rw [spreadsFold, hst₁]; exact hst'⟩

/-- C6: every collected spread whose fragment name has no definition in the
index is not silently skipped: the matching pass succeeds exactly when every
collected spread resolves, and a failing matching pass makes the whole plugin
run fail before any report is produced (the uniformly applied policy is to
abort). -/
theorem undefined_reference_aborts (st : VisitorState) :
    ((∃ st', validateFragmentSpreads st = Except.ok st') ↔
      ∀ s ∈ st.spreads, (st.definitionIndex.lookup s.fragmentName).isSome)
    ∧ (∀ documents config e,
        runVisitor documents (configWithDefaults config) = Except.error e →
        plugin documents config = Except.error e) := by
  constructor
  · exact spreadsFold_ok_iff st.definitionIndex st.spreads st
  · intro documents config e hrun
    simp only [plugin, hrun]

/-- Concrete instance: one collected spread with no indexed definition makes
the matching pass fail. -/
theorem undefined_reference_aborts_witness :
    ¬ ∃ st', validateFragmentSpreads
        { issues := [], fragmentsChecked := 0, fragmentsWithIssues := ∅,
          definitionIndex := [],
          spreads := [{ fragmentName := "Missing", suppliesArguments := false,
                        loc := none }] } = Except.ok st' := by
  intro hok
  have hall := (undefined_reference_aborts
    { issues := [], fragmentsChecked := 0, fragmentsWithIssues := ∅,
      definitionIndex := [],
      spreads := [{ fragmentName := "Missing", suppliesArguments := false,
                    loc := none }] }).1.mp hok
  have := hall { fragmentName := "Missing", suppliesArguments := false,
                 loc := none } (by simp)
  simp [List.lookup] at this

/-- C3: the plugin never fails for an individual rule violation while the
rules run (a spread whose definition resolves always yields a state, mismatch
or not); after a completed run it fails exactly when the collected issue list
contains at least one error-level issue, carrying the full formatted report,
and otherwise returns the complete formatted report. -/
theorem aggregate_failure_policy (documents : List DocumentFile)
    (config : FragmentArgumentLinterConfig) (st : VisitorState)
    (h : runVisitor documents (configWithDefaults config) = Except.ok st) :
    (∀ (index : List (String × Bool)) (st' : VisitorState)
        (s : FragmentSpreadRecord) (d : Bool),
        index.lookup s.fragmentName = some d →
        ∃ st'', matchSpread index st' s = Except.ok st'')
    ∧ ((getIssues st).filter (fun i => i.level == Level.error) ≠ [] →
        plugin documents config = Except.error
          (failureMessage
            ((getIssues st).filter (fun i => i.level == Level.error)).length
            (generateReport (getIssues st) (getStats st))))
    ∧ ((getIssues st).filter (fun i => i.level == Level.error) = [] →
        plugin documents config =
          Except.ok (generateReport (getIssues st) (getStats st))) := by
  refine ⟨?_, ?_, ?_⟩
  · intro index st' s d hl
    simp only [matchSpread, hl]
    split
    · exact ⟨_, rfl⟩
    · split
      · exact ⟨_, rfl⟩
      · exact ⟨_, rfl⟩
  · intro hne
    have hlen : 0 < ((getIssues st).filter (fun i => i.level == Level.error)).length :=
      List.length_pos.mpr hne
    simp only [plugin, h]
    rw [if_pos hlen]
  · intro hnil
    simp only [plugin, h, hnil]
    rfl

/-- Concrete instance: a run over no documents completes with no issues and
the plugin returns the report. -/
theorem aggregate_failure_policy_witness :
    plugin [] { requireArgumentDefinitions := none } =
      Except.ok (generateReport [] (getStats initialState)) :=
  (aggregate_failure_policy [] { requireArgumentDefinitions := none }
    initialState rfl).2.2 rfl

/-- The bookkeeping invariant of the pipeline: the fragments-with-issues set
is exactly the set of fragment names of the collected issues. -/
def IssueSetInv (st : VisitorState) : Prop :=
  st.fragmentsWithIssues = (st.issues.map ValidationIssue.fragmentName).toFinset

theorem issueSetInv_initial : IssueSetInv initialState := by
  simp [IssueSetInv, initialState]

theorem issueSetInv_addIssue {st : VisitorState} (h : IssueSetInv st)
    (i : ValidationIssue) : IssueSetInv (addIssue st i) := by
  unfold IssueSetInv addIssue
  simp only [List.map_append, List.map_cons, List.map_nil, List.toFinset_append]
  rw [h, Finset.insert_eq, Finset.union_comm]
  simp

theorem issueSetInv_validateFragment (cfg : RequiredConfig) {st : VisitorState}
    (h : IssueSetInv st) (name : String) (node : FragmentDefinitionNode) :
    IssueSetInv (validateFragment cfg st name node) := by
  simp only [validateFragment]
  split
  · exact issueSetInv_addIssue h _
  · exact h

theorem issueSetInv_collect {st : VisitorState} (h : IssueSetInv st)
    (node : FragmentSpreadNode) : IssueSetInv (collectFragmentSpread st node) := h

theorem issueSetInv_matchSpread (index : List (String × Bool))
    {st st' : VisitorState} (h : IssueSetInv st) (s : FragmentSpreadRecord)
    (hm : matchSpread index st s = Except.ok st') : IssueSetInv st' := by
  unfold matchSpread at hm
  cases hl : index.lookup s.fragmentName with
  | none =>
    simp only [hl] at hm
    cases hm
  | some d =>
    simp only [hl] at hm
    split at hm
    · injection hm with he
      exact he ▸ issueSetInv_addIssue h _
    · split at hm
      · injection hm with he
        exact he ▸ issueSetInv_addIssue h _
      · injection hm with he
        exact he ▸ h

theorem issueSetInv_spreadsFold (index : List (String × Bool))
    (l : List FragmentSpreadRecord) :
    ∀ {st st' : VisitorState}, IssueSetInv st →
      spreadsFold index st l = Except.ok st' → IssueSetInv st' := by
  induction l with
  | nil =>
    intro st st' h hok
    unfold spreadsFold at hok
    injection hok with he
    exact he ▸ h
  | cons s rest ih =>
    intro st st' h hok
    unfold spreadsFold at hok
    cases hm : matchSpread index st s with
    | error e => rw [hm] at hok; cases hok
    | ok st₁ =>
      rw [hm] at hok
      exact ih (issueSetInv_matchSpread index h s hm) hok

theorem issueSetInv_foldl_validate (cfg : RequiredConfig)
    (l : List LoadedFragment) :
    ∀ {st : VisitorState}, IssueSetInv st →
      IssueSetInv (l.foldl (fun st f => validateFragment cfg st f.name f.node) st) := by
  induction l with
  | nil => intro st h; exact h
  | cons f rest ih =>
    intro st h
    rw [List.foldl_cons]
    exact ih (issueSetInv_validateFragment cfg h f.name f.node)

theorem issueSetInv_foldl_collect (l : List FragmentSpreadNode) :
    ∀ {st : VisitorState}, IssueSetInv st →
      IssueSetInv (l.foldl collectFragmentSpread st) := by
  induction l with
  | nil => intro st h; exact h
  | cons n rest ih =>
    intro st h
    rw [List.foldl_cons]
    exact ih (issueSetInv_collect h n)

theorem issueSetInv_runVisitor (documents : List DocumentFile)
    (cfg : RequiredConfig) (st : VisitorState)
    (h : runVisitor documents cfg = Except.ok st) : IssueSetInv st := by
  unfold runVisitor at h
  exact issueSetInv_spreadsFold _ _
    (issueSetInv_foldl_collect _ (issueSetInv_foldl_validate _ _ issueSetInv_initial)) h

/-- C5: after every completed run, the distinct fragments-with-issues count
returned by getStats is at most the total issue count, with equality exactly
when no fragment name appears in more than one issue. -/
theorem grouping_cardinality (documents : List DocumentFile)
    (config : FragmentArgumentLinterConfig) (st : VisitorState)
    (h : runVisitor documents (configWithDefaults config) = Except.ok st) :
    (getStats st).fragmentsWithIssues ≤ (getStats st).totalIssues
    ∧ ((getStats st).fragmentsWithIssues = (getStats st).totalIssues ↔
        (st.issues.map ValidationIssue.fragmentName).Nodup) := by
  have hinv := issueSetInv_runVisitor documents _ st h
  unfold IssueSetInv at hinv
  unfold getStats
  dsimp only
  rw [hinv, List.card_toFinset]
  have hlen : (st.issues.map ValidationIssue.fragmentName).length = st.issues.length :=
    List.length_map _ _
  have hsub := List.dedup_sublist (st.issues.map ValidationIssue.fragmentName)
  constructor
  · calc (st.issues.map ValidationIssue.fragmentName).dedup.length
        ≤ (st.issues.map ValidationIssue.fragmentName).length := hsub.length_le
      _ = st.issues.length := hlen
  · constructor
    · intro he
      have heq : (st.issues.map ValidationIssue.fragmentName).dedup =
          st.issues.map ValidationIssue.fragmentName :=
        hsub.eq_of_length (by rw [he, hlen])
      rw [← heq]
      exact List.nodup_dedup _
    · intro hnd
      rw [List.dedup_eq_self.mpr hnd, hlen]

/-- Concrete instance: an empty run has zero distinct fragments with issues
and zero issues, and its issue-name list has no duplicates. -/
theorem grouping_cardinality_witness :
    (getStats initialState).fragmentsWithIssues ≤ (getStats initialState).totalIssues :=
  (grouping_cardinality [] { requireArgumentDefinitions := none }
    initialState rfl).1

/-- C7: the pipeline is deterministic — two runs on the same documents and
configuration produce the same issue sequence and summary counts, the same
returned report, and the same thrown failure. -/
theorem pipeline_deterministic (documents : List DocumentFile)
    (config : FragmentArgumentLinterConfig) :
    (∀ st st', runVisitor documents (configWithDefaults config) = Except.ok st →
        runVisitor documents (configWithDefaults config) = Except.ok st' →
        getIssues st = getIssues st' ∧ getStats st = getStats st')
    ∧ (∀ r r', plugin documents config = Except.ok r →
        plugin documents config = Except.ok r' → r = r')
    ∧ (∀ e e', plugin documents config = Except.error e →
        plugin documents config = Except.error e' → e = e') := by
  refine ⟨?_, ?_, ?_⟩
  · intro st st' h h'
    rw [h] at h'
    injection h' with he
    subst he
    exact ⟨rfl, rfl⟩
  · intro r r' h h'
    rw [h] at h'
    injection h' with he
  · intro e e' h h'
    rw [h] at h'
    injection h' with he

/-- Concrete instance: the empty run's two invocations agree on issues and
stats. -/
theorem pipeline_deterministic_witness :
    getIssues initialState = getIssues initialState
    ∧ getStats initialState = getStats initialState :=
  (pipeline_deterministic [] { requireArgumentDefinitions := none }).1
    initialState initialState rfl rfl


theorem lookupGroup_insertIssue (acc : List (String × List ValidationIssue))
    (i : ValidationIssue) (name : String) :
    lookupGroup (insertIssue acc i) name =
      if i.fragmentName = name then some (((lookupGroup acc name).getD []) ++ [i])
      else lookupGroup acc name := by
  induction acc with
  | nil =>
    by_cases h : i.fragmentName = name
    · subst h
      simp [insertIssue, lookupGroup]
    · simp [insertIssue, lookupGroup, h]
  | cons p rest ih =>
    obtain ⟨k, g⟩ := p
    by_cases hk : k = i.fragmentName
    · subst hk
      by_cases hn : i.fragmentName = name
      · subst hn
        simp [insertIssue, lookupGroup]
      · simp [insertIssue, lookupGroup, hn]
    · by_cases hn : k = name
      · subst hn
        have hfn : ¬ i.fragmentName = k := fun h => hk h.symm
        simp [insertIssue, lookupGroup, hk, hfn]
      · simp [insertIssue, lookupGroup, hk, hn, ih]

theorem keys_insertIssue (acc : List (String × List ValidationIssue))
    (i : ValidationIssue) :
    (insertIssue acc i).map Prod.fst =
      if i.fragmentName ∈ acc.map Prod.fst then acc.map Prod.fst
      else acc.map Prod.fst ++ [i.fragmentName] := by
  induction acc with
  | nil => simp [insertIssue]
  | cons p rest ih =>
    obtain ⟨k, g⟩ := p
    by_cases hk : k = i.fragmentName
    · subst hk
      simp [insertIssue]
    · have hke : ¬ i.fragmentName = k := fun h => hk h.symm
      by_cases hm : i.fragmentName ∈ rest.map Prod.fst
      · simp [insertIssue, hk, ih, hm, hke]
      · simp [insertIssue, hk, ih, hm, hke]

theorem nodup_keys_insertIssue {acc : List (String × List ValidationIssue)}
    (h : (acc.map Prod.fst).Nodup) (i : ValidationIssue) :
    ((insertIssue acc i).map Prod.fst).Nodup := by
  rw [keys_insertIssue]
  split
  · exact h
  · rename_i hm
    rw [List.nodup_append]
    refine ⟨h, List.nodup_singleton _, ?_⟩
    intro a ha hb
    rw [List.mem_singleton] at hb
    exact hm (hb ▸ ha)

theorem lookupGroup_groupFold (l : List ValidationIssue) :
    ∀ (acc : List (String × List ValidationIssue)) (name : String),
      (lookupGroup (l.foldl insertIssue acc) name).getD [] =
        ((lookupGroup acc name).getD []) ++ l.filter fun i => i.fragmentName = name := by
  induction l with
  | nil => intro acc name; simp
  | cons i rest ih =>
    intro acc name
    rw [List.foldl_cons, ih, lookupGroup_insertIssue]
    by_cases h : i.fragmentName = name
    · simp [h, List.filter_cons]
    · simp [h, List.filter_cons]

theorem mem_keys_groupFold (l : List ValidationIssue) :
    ∀ (acc : List (String × List ValidationIssue)) (name : String),
      (name ∈ (l.foldl insertIssue acc).map Prod.fst ↔
        name ∈ acc.map Prod.fst ∨ name ∈ l.map ValidationIssue.fragmentName) := by
  induction l with
  | nil => intro acc name; simp
  | cons i rest ih =>
    intro acc name
    rw [List.foldl_cons, ih, keys_insertIssue]
    by_cases hm : i.fragmentName ∈ acc.map Prod.fst
    · rw [if_pos hm]
      simp only [List.map_cons, List.mem_cons]
      constructor
      · rintro (h | h)
        · exact Or.inl h
        · exact Or.inr (Or.inr h)
      · rintro (h | h | h)
        · exact Or.inl h
        · exact Or.inl (h ▸ hm)
        · exact Or.inr h
    · rw [if_neg hm]
      simp [List.mem_append, or_assoc]

theorem nodup_keys_groupFold (l : List ValidationIssue) :
    ∀ (acc : List (String × List ValidationIssue)),
      (acc.map Prod.fst).Nodup → ((l.foldl insertIssue acc).map Prod.fst).Nodup := by
  induction l with
  | nil => intro acc h; exact h
  | cons i rest ih =>
    intro acc h
    rw [List.foldl_cons]
    exact ih _ (nodup_keys_insertIssue h i)

theorem lookupGroup_groupByFragment (issues : List ValidationIssue) (name : String) :
    (lookupGroup (groupByFragment issues) name).getD [] =
      issues.filter fun i => i.fragmentName = name := by
  unfold groupByFragment
  rw [lookupGroup_groupFold]
  simp [lookupGroup]

theorem mem_keys_groupByFragment (issues : List ValidationIssue) (name : String) :
    name ∈ (groupByFragment issues).map Prod.fst ↔
      name ∈ issues.map ValidationIssue.fragmentName := by
  unfold groupByFragment
  rw [mem_keys_groupFold]
  simp

theorem nodup_keys_groupByFragment (issues : List ValidationIssue) :
    ((groupByFragment issues).map Prod.fst).Nodup := by
  unfold groupByFragment
  exact nodup_keys_groupFold issues [] (by simp)

theorem reportSections_keys (issues : List ValidationIssue) :
    (reportSections issues).map Prod.fst =
      ((groupByFragment issues).map Prod.fst).mergeSort (fun a b => decide (a ≤ b)) := by
  unfold reportSections
  rw [List.map_map]
  exact List.map_id _

theorem reportSections_sorted (issues : List ValidationIssue) :
    List.Pairwise (fun a b : String => a ≤ b) ((reportSections issues).map Prod.fst) := by
  rw [reportSections_keys]
  have hp := @List.sorted_mergeSort String (fun a b => decide (a ≤ b))
    (fun a b c hab hbc =>
      decide_eq_true (le_trans (of_decide_eq_true hab) (of_decide_eq_true hbc)))
    (fun a b => by rcases le_total a b with h | h <;> simp [h])
    ((groupByFragment issues).map Prod.fst)
  exact hp.imp fun h => of_decide_eq_true h

/-- C8: in the generated report, issues are grouped into one section per
fragment name, the sections appear in lexicographic order of fragment name
(sorted, without duplicates, covering exactly the fragment names of the
issues), and within each section the issues appear in emission order (each
section's group equals the filter of the issue list by that name). -/
theorem report_grouping (issues : List ValidationIssue) :
    List.Pairwise (fun a b : String => a ≤ b) ((reportSections issues).map Prod.fst)
    ∧ ((reportSections issues).map Prod.fst).Nodup
    ∧ (∀ name, name ∈ (reportSections issues).map Prod.fst ↔
        name ∈ issues.map ValidationIssue.fragmentName)
    ∧ (∀ name group, (name, group) ∈ reportSections issues →
        group = issues.filter fun i => i.fragmentName = name) := by
  have hperm := List.mergeSort_perm ((groupByFragment issues).map Prod.fst)
    (fun a b => decide (a ≤ b))
  refine ⟨reportSections_sorted issues, ?_, ?_, ?_⟩
  · rw [reportSections_keys]
    exact (hperm.nodup_iff).mpr (nodup_keys_groupByFragment issues)
  · intro name
    rw [reportSections_keys, hperm.mem_iff]
    exact mem_keys_groupByFragment issues name
  · intro name group hmem
    unfold reportSections at hmem
    simp only [List.mem_map] at hmem
    obtain ⟨n, hn, heq⟩ := hmem
    rw [Prod.mk.injEq] at heq
    obtain ⟨h1, h2⟩ := heq
    subst h1
    subst h2
    exact lookupGroup_groupByFragment issues n

/-- Concrete instance: with two issues emitted under fragment names B then A,
the A section holds exactly the A issue. -/
theorem report_grouping_witness :
    [({ level := Level.error, message := "a", fragmentName := "A",
        location := none } : ValidationIssue)] =
      [({ level := Level.error, message := "b", fragmentName := "B",
          location := none } : ValidationIssue),
       { level := Level.error, message := "a", fragmentName := "A",
         location := none }].filter (fun i => i.fragmentName = "A") :=
  (report_grouping
    [{ level := Level.error, message := "b", fragmentName := "B", location := none },
     { level := Level.error, message := "a", fragmentName := "A", location := none }]).2.2.2
    "A"
    [{ level := Level.error, message := "a", fragmentName := "A", location := none }]
    (by simp [reportSections, groupByFragment, insertIssue, lookupGroup,
          List.mergeSort, List.merge]
        decide)
